import Mathlib

/-!
# ShotDoctor motion-event segmentation engine: shallow embedding

This file embeds the shot-detection core of the ShotDoctor repository
(`src/api/core/live_analysis.py`, class `LiveShotDetector`, and
`src/api/core/debug_shot_detection.py`, class `ShotDetectionDebugger`)
and proves the spec's testable properties about it.

Modelling conventions:
* Python floats are modelled as `ℚ`.  The elbow-angle computation itself
  (`_calculate_angle`, law of cosines via `arccos`) is transcendental, so a
  frame's derived features (elbow angle, wrist/shoulder vertical positions,
  visibility verdict) are the inputs of the embedded engine; everything the
  detection logic does with those features is embedded verbatim.
* The source keeps several parallel buffers (`frames_buffer`,
  `landmarks_buffer`, `elbow_angles`, `wrist_heights` in the live variant;
  `frames_buffer`, `metrics_buffer` in the debug variant) that are appended
  to and popped from strictly in lockstep, so all have equal length at all
  times.  The embedding keeps the one buffer that detection reads
  (`elbow_angles` resp. `metrics_buffer`); `len(self.frames_buffer)` in the
  source corresponds to its length.
* Python truthiness on an optional float (`if self.elbow_angles[i] and …`)
  is `False` exactly for `None` and `0.0`; the embedding tests
  `Option.{none}` and the value `0` accordingly.
* `Optional` values are `Option ℚ`; Python's `float('inf')` initial minimum
  is represented by `none` in the running-minimum accumulator.
-/

namespace ShotDoctor

/-- One frame's derived features, as computed at the top of
`LiveShotDetector.update` / `ShotDetectionDebugger.process_frame`:
`missing` means at least one of the lead-side shoulder/elbow/wrist
landmarks is absent (so the elbow angle is undefined and the stability
counter resets); `present angle wristY shoulderY visOk` gives the computed
elbow angle, the wrist and shoulder vertical coordinates (used for the
`wrist_above_shoulder` flag `wristY < shoulderY`), and whether all three
joint confidences exceeded 0.5. -/
inductive FrameInput where
  | missing
  | present (angle wristY shoulderY : ℚ) (visOk : Bool)
deriving Repr, DecidableEq

/-- Output of `LiveShotDetector._create_shot_from_release` (`ShotEvent` in
the source), restricted to the detection-relevant fields: the eight
key-frame buffer indices and the two extremal angle values.
`elbowAngleLoad` is the running minimum of the backward search (`none`
models the unreached `float('inf')` initial value); the wall-clock
`timestamp`, the copied frame images, and the Gemini-filled diagnostic
fields are outside the detection logic and are not modelled. -/
structure ShotEvent where
  stance : ℕ
  load : ℕ
  mid1 : ℕ
  mid2 : ℕ
  mid3 : ℕ
  mid4 : ℕ
  release : ℕ
  followthrough : ℕ
  elbowAngleLoad : Option ℚ
  elbowAngleRelease : ℚ
deriving Repr, DecidableEq

/-- Detection state of `LiveShotDetector`: the derived-feature ring buffer
(`elbow_angles`, in lockstep with `frames_buffer`), the stability counter,
and the stored buffer index of the last accepted shot
(`last_shot_frame`, initialised to `-100`). -/
structure LiveState where
  elbowAngles : List (Option ℚ)
  stabilityCount : ℕ
  lastShotFrame : ℤ
deriving Repr, DecidableEq

/-- Initial `LiveShotDetector` state (`__init__`). -/
def initLive : LiveState := ⟨[], 0, -100⟩

/-- `self.max_buffer = 180` in `LiveShotDetector`. -/
def MAX_BUFFER : ℕ := 180

/-- `self.max_buffer = 200` in `ShotDetectionDebugger`. -/
def DEBUG_MAX_BUFFER : ℕ := 200

/-- `self.STABILITY_REQUIRED = 8` (both variants). -/
def STABILITY_REQUIRED : ℕ := 8

/-- `self.RELEASE_ANGLE = 155` (both variants). -/
def RELEASE_ANGLE : ℚ := 155

/-- `self.MIN_SHOT_FRAMES = 10` (both variants). -/
def MIN_SHOT_FRAMES : ℕ := 10

/-- `self.COOLDOWN_FRAMES = 45` (both variants). -/
def COOLDOWN_FRAMES : ℤ := 45

/-- `_trim_buffer` (both variants): pop the oldest element while the buffer
exceeds `cap`, and for each popped element decrement `last_shot_frame` by
one when it is positive.  Polymorphic over the buffer element type; the
parallel buffers of the source are popped in lockstep, so one list stands
for all of them. -/
def trimBuffer (cap : ℕ) : List α → ℤ → List α × ℤ
  | [], last => ([], last)
  | a :: rest, last =>
    if cap < (a :: rest).length then
      trimBuffer cap rest (if 0 < last then last - 1 else last)
    else (a :: rest, last)

/-- The guard of the backward-search loop body in
`_create_shot_from_release`:
`if self.elbow_angles[i] and self.elbow_angles[i] < min_angle`.
`a` is the buffer entry at `i`, `curMin` the running minimum (`none` for
the initial `float('inf')`).  Python truthiness makes `None` and `0.0`
fail the first conjunct. -/
def scanHit (a : Option ℚ) (curMin : Option ℚ) : Bool :=
  match a, curMin with
  | none, _ => false
  | some x, none => decide (x ≠ 0)
  | some x, some m => decide (x ≠ 0) && decide (x < m)

/-- The backward-search loop of `_create_shot_from_release`
(`for i in range(search_start, release_idx)`), with accumulator
`(load_idx, min_angle)`.  Out-of-range reads yield `none` and are skipped,
matching the debug variant's explicit `if i < len(self.metrics_buffer)`
guard (the live variant only ever scans in-range indices). -/
def loadScan (angles : List (Option ℚ)) : List ℕ → ℕ × Option ℚ → ℕ × Option ℚ
  | [], acc => acc
  | i :: rest, acc =>
    if scanHit (angles.getD i none) acc.2 then
      loadScan angles rest (i, angles.getD i none)
    else
      loadScan angles rest acc

/-- `int(shot_duration * (n/100))` for the mid-point fractions
(`0.20`/`0.40`/`0.60`/`0.80`): for a nonnegative integer `d` this
truncation is exactly `⌊d·n/100⌋ = d*n/100` in integer arithmetic
(`midOffset_eq_floorFrac` below); over the source's range (`d` below the
buffer capacity) the float products `d * 0.20` … never round across an
integer boundary, so the float truncation agrees with the exact value. -/
def midOffset (d n : ℕ) : ℕ := d * n / 100

/-- The spec-side form of the mid-point offset: `⌊f · d⌋` as a real
(rational) floor. -/
def floorFrac (d : ℕ) (f : ℚ) : ℕ := (⌊(d : ℚ) * f⌋).toNat

/-- The `clamp` helper of `_create_shot_from_release`:
`max(0, min(i, len(self.frames_buffer) - 1))`; indices are already
nonnegative, so only the upper clamp is active. -/
def clampIdx (len i : ℕ) : ℕ := min i (len - 1)

/-- Python `x or default` for an optional float result: `None` and `0.0`
select the default (used for `elbow_angle_release = release_angle or 170`). -/
def orDefault (a : Option ℚ) (d : ℚ) : ℚ :=
  match a with
  | some x => if x = 0 then d else x
  | none => d

/-- `LiveShotDetector._create_shot_from_release`: backward search for the
load (minimum elbow angle over the window `[max(0, R-60), R)`), minimum
load-to-release duration check, key-frame index computation and clamping.
The copied images and the knee/wrist metric fields are outside the
detection logic and are not modelled. -/
def createShotFromRelease (angles : List (Option ℚ)) (releaseIdx : ℕ) :
    Option ShotEvent :=
  let searchStart := releaseIdx - 60
  let scanned := loadScan angles
    (List.range' searchStart (releaseIdx - searchStart)) (releaseIdx, none)
  let loadIdx := scanned.1
  let minAngle := scanned.2
  let shotDuration := releaseIdx - loadIdx
  if shotDuration < MIN_SHOT_FRAMES then none
  else
    let len := angles.length
    let mid1 := clampIdx len (loadIdx + midOffset shotDuration 20)
    let mid2 := clampIdx len (loadIdx + midOffset shotDuration 40)
    let mid3 := clampIdx len (loadIdx + midOffset shotDuration 60)
    let mid4 := clampIdx len (loadIdx + midOffset shotDuration 80)
    let stance := clampIdx len (loadIdx - 5)
    let follow := clampIdx len (min (releaseIdx + 5) (len - 1))
    let releaseAngle :=
      orDefault (if releaseIdx < len then angles.getD releaseIdx none else some 0) 170
    some ⟨stance, clampIdx len loadIdx, mid1, mid2, mid3, mid4,
      clampIdx len releaseIdx, follow, minAngle, releaseAngle⟩

/-- The elbow angle stored into the buffer for one input frame
(`elbow_angle` in `update`: `None` unless all three landmarks are present). -/
def featAngle : FrameInput → Option ℚ
  | .missing => none
  | .present a _ _ _ => some a

/-- `wrist_above_shoulder` for one input frame
(`wrist[1] < shoulder[1]`, `False` when a landmark is missing). -/
def featWristAbove : FrameInput → Bool
  | .missing => false
  | .present _ wy sy _ => decide (wy < sy)

/-- The stability-counter update of one frame: incremented when all three
landmarks are present with confidence above 0.5, reset to 0 otherwise. -/
def stabStep (count : ℕ) : FrameInput → ℕ
  | .missing => 0
  | .present _ _ _ visOk => if visOk then count + 1 else 0

/-- Per-frame ingestion of `update`: feature extraction, stability-counter
update, buffer append, and `_trim_buffer` (which also re-bases
`last_shot_frame`). -/
def ingest (s : LiveState) (inp : FrameInput) : LiveState :=
  let trimmed := trimBuffer MAX_BUFFER (s.elbowAngles ++ [featAngle inp]) s.lastShotFrame
  ⟨trimmed.1, stabStep s.stabilityCount inp, trimmed.2⟩

/-- The release-rule guard of `update`:
`if elbow_angle and elbow_angle > self.RELEASE_ANGLE and wrist_above_shoulder`
(Python truthiness on the optional angle). -/
def fireGuard (a : Option ℚ) (wristAbove : Bool) : Bool :=
  match a with
  | none => false
  | some x => decide (x ≠ 0) && decide (RELEASE_ANGLE < x) && wristAbove

/-- `LiveShotDetector.update`: ingest the frame, then apply the stability,
cooldown and release-rule gates on the current (newest) buffer index; on a
firing, delegate to `_create_shot_from_release` and record the cooldown
index only if a shot is actually returned. -/
def update (s : LiveState) (inp : FrameInput) : LiveState × Option ShotEvent :=
  let s' := ingest s inp
  let currentIdx := s'.elbowAngles.length - 1
  if s'.stabilityCount < STABILITY_REQUIRED then (s', none)
  else if (currentIdx : ℤ) - s'.lastShotFrame < COOLDOWN_FRAMES then (s', none)
  else if fireGuard (featAngle inp) (featWristAbove inp) then
    match createShotFromRelease s'.elbowAngles currentIdx with
    | some shot => ({ s' with lastShotFrame := (currentIdx : ℤ) }, some shot)
    | none => (s', none)
  else (s', none)

/-- One step of the live frame loop: update the state and append any
emitted shot to the trace. -/
def liveStep (acc : LiveState × List ShotEvent) (inp : FrameInput) :
    LiveState × List ShotEvent :=
  ((update acc.1 inp).1, acc.2 ++ (update acc.1 inp).2.toList)

/-- Feed a frame sequence through a freshly initialised `LiveShotDetector`,
collecting the emitted shots in order. -/
def runLive (inputs : List FrameInput) : LiveState × List ShotEvent :=
  inputs.foldl liveStep (initLive, [])

/-! ## The debug variant (`ShotDetectionDebugger`) -/

/-- `FrameMetrics` of `debug_shot_detection.py`, restricted to the fields
derivable from the abstracted per-frame input (the raw per-joint
`shoulder_y`/`elbow_y`/`wrist_y` copies are diagnostic duplicates of
landmark coordinates and are not modelled). -/
structure FrameMetrics where
  frameNum : ℕ
  timestampMs : ℚ
  elbowAngle : Option ℚ
  wristHeight : Option ℚ
  wristAboveShoulder : Bool
deriving Repr, DecidableEq

/-- `DetectedShot` of `debug_shot_detection.py`: ordinal number, the
diagnostic-window bounds (`frame_start`/`frame_end`), the eight key-frame
buffer indices, the two extremal angles, and the `frame_metrics` slice of
the metrics buffer. -/
structure DetectedShot where
  shotNum : ℕ
  frameStart : ℕ
  frameEnd : ℕ
  stance : ℕ
  load : ℕ
  mid1 : ℕ
  mid2 : ℕ
  mid3 : ℕ
  mid4 : ℕ
  release : ℕ
  followthrough : ℕ
  loadAngle : Option ℚ
  releaseAngle : ℚ
  frameMetrics : List FrameMetrics
deriving Repr, DecidableEq

/-- Detection state of `ShotDetectionDebugger`: metrics buffer (in lockstep
with `frames_buffer`), stability counter, stored last-shot index, and the
running shot count. -/
structure DebugState where
  metricsBuffer : List FrameMetrics
  stabilityCount : ℕ
  lastShotFrame : ℤ
  shotCount : ℕ
deriving Repr, DecidableEq

/-- Initial `ShotDetectionDebugger` state (`__init__`). -/
def initDebug : DebugState := ⟨[], 0, -100, 0⟩

/-- `wrist_height` stored in the metrics record (`wrist[1]` when the
landmarks are present, `None` otherwise). -/
def featWristHeight : FrameInput → Option ℚ
  | .missing => none
  | .present _ wy _ _ => some wy

/-- `ShotDetectionDebugger._create_shot`: identical backward search,
duration check, key-frame computation and clamping as the live variant,
except that the release angle is passed in from the caller, the shot count
is incremented (and the increment undone on rejection — modelled by the
caller only bumping the count on success), and a `frame_metrics` slice over
`[max(0, stance-10), min(len, followthrough+10))` is packaged.
`shotCount` is the pre-increment count, so the emitted ordinal is
`shotCount + 1`. -/
def createShotDebug (buf : List FrameMetrics) (shotCount : ℕ)
    (releaseIdx : ℕ) (releaseAngle : ℚ) : Option DetectedShot :=
  let angles := buf.map (fun m => m.elbowAngle)
  let searchStart := releaseIdx - 60
  let scanned := loadScan angles
    (List.range' searchStart (releaseIdx - searchStart)) (releaseIdx, none)
  let loadIdx := scanned.1
  let minAngle := scanned.2
  let shotDuration := releaseIdx - loadIdx
  if shotDuration < MIN_SHOT_FRAMES then none
  else
    let len := buf.length
    let mid1 := clampIdx len (loadIdx + midOffset shotDuration 20)
    let mid2 := clampIdx len (loadIdx + midOffset shotDuration 40)
    let mid3 := clampIdx len (loadIdx + midOffset shotDuration 60)
    let mid4 := clampIdx len (loadIdx + midOffset shotDuration 80)
    let stance := clampIdx len (loadIdx - 5)
    let follow := clampIdx len (min (releaseIdx + 5) (len - 1))
    let windowStart := stance - 10
    let windowEnd := min len (follow + 10)
    some ⟨shotCount + 1, windowStart, windowEnd, stance, clampIdx len loadIdx,
      mid1, mid2, mid3, mid4, clampIdx len releaseIdx, follow, minAngle,
      releaseAngle, (buf.take windowEnd).drop windowStart⟩

/-- Per-frame ingestion of `process_frame`: build the metrics record,
update the stability counter, append, and `_trim_buffer`. -/
def ingestDebug (s : DebugState) (inp : FrameInput) (frameNum : ℕ)
    (timestampMs : ℚ) : DebugState :=
  let metrics : FrameMetrics :=
    ⟨frameNum, timestampMs, featAngle inp, featWristHeight inp, featWristAbove inp⟩
  let trimmed := trimBuffer DEBUG_MAX_BUFFER (s.metricsBuffer ++ [metrics]) s.lastShotFrame
  ⟨trimmed.1, stabStep s.stabilityCount inp, trimmed.2, s.shotCount⟩

/-- `ShotDetectionDebugger.process_frame`: same gate structure as the live
`update`; on a firing the current elbow angle is handed to `_create_shot`
as the release angle. -/
def processFrame (s : DebugState) (inp : FrameInput) (frameNum : ℕ)
    (timestampMs : ℚ) : DebugState × Option DetectedShot :=
  let s' := ingestDebug s inp frameNum timestampMs
  let currentIdx := s'.metricsBuffer.length - 1
  if s'.stabilityCount < STABILITY_REQUIRED then (s', none)
  else if (currentIdx : ℤ) - s'.lastShotFrame < COOLDOWN_FRAMES then (s', none)
  else
    match featAngle inp with
    | none => (s', none)
    | some x =>
      if decide (x ≠ 0) && decide (RELEASE_ANGLE < x) && featWristAbove inp then
        match createShotDebug s'.metricsBuffer s'.shotCount currentIdx x with
        | some shot =>
          ({ s' with lastShotFrame := (currentIdx : ℤ),
                     shotCount := s'.shotCount + 1 }, some shot)
        | none => (s', none)
      else (s', none)

/-- One step of the debug frame loop: process the frame (frame numbers
assigned sequentially, timestamps derived from the frame number), count it,
and append any emitted shot to the trace. -/
def debugStep (acc : DebugState × ℕ × List DetectedShot) (inp : FrameInput) :
    DebugState × ℕ × List DetectedShot :=
  ((processFrame acc.1 inp acc.2.1 (acc.2.1 : ℚ)).1, acc.2.1 + 1,
    acc.2.2 ++ (processFrame acc.1 inp acc.2.1 (acc.2.1 : ℚ)).2.toList)

/-- Feed a frame sequence through a freshly initialised
`ShotDetectionDebugger`, collecting the emitted shots in order. -/
def runDebug (inputs : List FrameInput) : DebugState × List DetectedShot :=
  let r := inputs.foldl debugStep (initDebug, 0, [])
  (r.1, r.2.2)

/-! ## Lemmas about `trimBuffer` -/

theorem trimBuffer_length (cap : ℕ) (buf : List α) (last : ℤ) :
    ((trimBuffer cap buf last).1).length = min buf.length cap := by
  induction buf generalizing last with
  | nil => simp [trimBuffer]
  | cons a rest ih =>
    simp only [trimBuffer, List.length_cons]
    split
    · rw [ih]
      omega
    · simp only [List.length_cons]
      omega

theorem trimBuffer_last (cap : ℕ) (buf : List α) (last : ℤ) :
    (trimBuffer cap buf last).2
      = max (last - ((buf.length - min buf.length cap : ℕ) : ℤ)) (min last 0) := by
  induction buf generalizing last with
  | nil => simp [trimBuffer]
  | cons a rest ih =>
    simp only [trimBuffer, List.length_cons]
    split
    · rw [ih]
      split <;> omega
    · simp only [List.length_cons]
      omega

/-! ## Lemmas about `loadScan` (the backward load search) -/

/-- `x` beats the running minimum (`none` plays `float('inf')`). -/
def beatsMin (x : ℚ) : Option ℚ → Prop
  | none => True
  | some m0 => x < m0

theorem scanHit_iff (a curMin : Option ℚ) :
    scanHit a curMin = true ↔ ∃ x, a = some x ∧ x ≠ 0 ∧ beatsMin x curMin := by
  cases a <;> cases curMin <;> simp [scanHit, beatsMin]

/-- Characterisation of one complete scan: either the accumulator survives
unchanged, or the result points at a scanned index holding a defined
nonzero angle that strictly beats the initial minimum. -/
theorem loadScan_cases (angles : List (Option ℚ)) (l : List ℕ) (li : ℕ) (mi : Option ℚ) :
    loadScan angles l (li, mi) = (li, mi) ∨
    (∃ m, (loadScan angles l (li, mi)).2 = some m ∧ m ≠ 0 ∧ beatsMin m mi ∧
      (loadScan angles l (li, mi)).1 ∈ l ∧
      angles.getD (loadScan angles l (li, mi)).1 none = some m) := by
  induction l generalizing li mi with
  | nil => exact Or.inl rfl
  | cons i rest ih =>
    simp only [loadScan]
    split
    · rename_i hhit
      rw [scanHit_iff] at hhit
      obtain ⟨x, hgd, hx0, hxlt⟩ := hhit
      rw [hgd]
      rcases ih i (some x) with h | ⟨m, hm, hm0, hlt, hmem, hgd2⟩
      · rw [h]
        refine Or.inr ⟨x, rfl, hx0, hxlt, List.mem_cons_self .., hgd⟩
      · refine Or.inr ⟨m, hm, hm0, ?_, List.mem_cons_of_mem _ hmem, hgd2⟩
        cases mi with
        | none => trivial
        | some m0 => exact lt_trans hlt hxlt
    · rcases ih li mi with h | ⟨m, hm, hm0, hlt, hmem, hgd2⟩
      · exact Or.inl h
      · exact Or.inr ⟨m, hm, hm0, hlt, List.mem_cons_of_mem _ hmem, hgd2⟩

/-- The scan's resulting minimum is at most any incoming minimum. -/
theorem loadScan_le_acc (angles : List (Option ℚ)) (l : List ℕ) (li : ℕ) (m0 : ℚ) :
    ∃ m, (loadScan angles l (li, some m0)).2 = some m ∧ m ≤ m0 := by
  rcases loadScan_cases angles l li (some m0) with h | ⟨m, hm, _, hlt, _, _⟩
  · exact ⟨m0, by rw [h], le_refl m0⟩
  · exact ⟨m, hm, le_of_lt hlt⟩

theorem beatsMin_none (x : ℚ) : beatsMin x none := trivial

/-- The scan's resulting minimum is at most every defined nonzero angle in
the scanned window. -/
theorem loadScan_min (angles : List (Option ℚ)) :
    ∀ (l : List ℕ) (li : ℕ) (mi : Option ℚ),
    ∀ j ∈ l, ∀ x, angles.getD j none = some x → x ≠ 0 →
      ∃ m, (loadScan angles l (li, mi)).2 = some m ∧ m ≤ x := by
  intro l
  induction l with
  | nil => intro li mi j hj; exact absurd hj (List.not_mem_nil j)
  | cons i rest ih =>
    intro li mi j hj x hgdx hx0
    simp only [loadScan]
    by_cases hhit : scanHit (angles.getD i none) mi = true
    · rw [if_pos hhit]
      rw [scanHit_iff] at hhit
      obtain ⟨y, hgd, hy0, _⟩ := hhit
      rw [hgd]
      rcases List.mem_cons.mp hj with rfl | hjr
      · have hxy : y = x := by rw [hgd] at hgdx; exact Option.some.inj hgdx
        obtain ⟨m, hm, hmle⟩ := loadScan_le_acc angles rest j y
        exact ⟨m, hm, le_trans hmle (le_of_eq hxy)⟩
      · exact ih i (some y) j hjr x hgdx hx0
    · rw [if_neg hhit]
      rcases List.mem_cons.mp hj with rfl | hjr
      · cases mi with
        | none =>
          exact absurd ((scanHit_iff (angles.getD j none) none).mpr
            ⟨x, hgdx, hx0, beatsMin_none x⟩) hhit
        | some m0 =>
          have hle : m0 ≤ x := by
            by_contra hcon
            exact hhit ((scanHit_iff (angles.getD j none) (some m0)).mpr
              ⟨x, hgdx, hx0, lt_of_not_le hcon⟩)
          obtain ⟨m, hm, hmle⟩ := loadScan_le_acc angles rest li m0
          exact ⟨m, hm, le_trans hmle hle⟩
      · exact ih li mi j hjr x hgdx hx0

/-- Earliest-tie property: any scanned index strictly before the chosen one
that carries a defined nonzero angle is strictly beaten by the resulting
minimum (the window indices must be strictly increasing, and a non-`none`
incoming minimum must have been acquired before the whole window). -/
theorem loadScan_earliest (angles : List (Option ℚ)) :
    ∀ (l : List ℕ) (li : ℕ) (mi : Option ℚ),
    l.Pairwise (· < ·) →
    (mi = none ∨ ∀ j ∈ l, li < j) →
    ∀ j ∈ l, j < (loadScan angles l (li, mi)).1 →
    ∀ x, angles.getD j none = some x → x ≠ 0 →
      ∃ m, (loadScan angles l (li, mi)).2 = some m ∧ m < x := by
  intro l
  induction l with
  | nil => intro li mi _ _ j hj; exact absurd hj (List.not_mem_nil j)
  | cons i rest ih =>
    intro li mi hsort hacc j hj hjlt x hgdx hx0
    have hhead : ∀ k ∈ rest, i < k := (List.pairwise_cons.mp hsort).1
    have htail : rest.Pairwise (· < ·) := (List.pairwise_cons.mp hsort).2
    simp only [loadScan] at hjlt ⊢
    by_cases hhit : scanHit (angles.getD i none) mi = true
    · rw [if_pos hhit] at hjlt ⊢
      have hhit2 := (scanHit_iff _ _).mp hhit
      obtain ⟨y, hgd, hy0, _⟩ := hhit2
      rw [hgd] at hjlt ⊢
      rcases List.mem_cons.mp hj with rfl | hjr
      · have hxy : y = x := by rw [hgd] at hgdx; exact Option.some.inj hgdx
        rcases loadScan_cases angles rest j (some y) with hc | ⟨m, hm, _, hlt, _, _⟩
        · rw [hc] at hjlt; exact absurd hjlt (lt_irrefl j)
        · exact ⟨m, hm, lt_of_lt_of_le hlt (le_of_eq hxy)⟩
      · exact ih i (some y) htail (Or.inr hhead) j hjr hjlt x hgdx hx0
    · rw [if_neg hhit] at hjlt ⊢
      rcases List.mem_cons.mp hj with rfl | hjr
      · cases mi with
        | none =>
          exact absurd ((scanHit_iff (angles.getD j none) none).mpr
            ⟨x, hgdx, hx0, beatsMin_none x⟩) hhit
        | some m0 =>
          have hle : m0 ≤ x := by
            by_contra hcon
            exact hhit ((scanHit_iff (angles.getD j none) (some m0)).mpr
              ⟨x, hgdx, hx0, lt_of_not_le hcon⟩)
          have hlij : li < j := by
            rcases hacc with h | h
            · exact absurd h (by simp)
            · exact h j (List.mem_cons_self ..)
          rcases loadScan_cases angles rest li (some m0) with hc | ⟨m, hm, _, hlt, _, _⟩
          · rw [hc] at hjlt
            exact absurd hlij (not_lt_of_lt hjlt)
          · exact ⟨m, hm, lt_of_lt_of_le hlt hle⟩
      · have hacc2 : mi = none ∨ ∀ k ∈ rest, li < k := by
          rcases hacc with h | h
          · exact Or.inl h
          · exact Or.inr fun k hk => h k (List.mem_cons_of_mem _ hk)
        exact ih li mi htail hacc2 j hjr hjlt x hgdx hx0

/-- The chosen load index never exceeds the release index it starts from. -/
theorem loadScan_fst_le (angles : List (Option ℚ)) (R : ℕ) :
    (loadScan angles (List.range' (R - 60) (R - (R - 60))) (R, none)).1 ≤ R := by
  rcases loadScan_cases angles (List.range' (R - 60) (R - (R - 60))) R none with
    h | ⟨_, _, _, _, hmem, _⟩
  · rw [h]
  · have := List.mem_range'_1.mp hmem
    omega

/-! ## Lemmas about per-frame ingestion and the gates of `update` -/

theorem ingest_length (s : LiveState) (inp : FrameInput) :
    (ingest s inp).elbowAngles.length = min (s.elbowAngles.length + 1) MAX_BUFFER := by
  simp [ingest, trimBuffer_length]

theorem ingest_last (s : LiveState) (inp : FrameInput) :
    (ingest s inp).lastShotFrame
      = max (s.lastShotFrame -
          (((s.elbowAngles.length + 1) - min (s.elbowAngles.length + 1) MAX_BUFFER : ℕ) : ℤ))
          (min s.lastShotFrame 0) := by
  simp [ingest, trimBuffer_last]

theorem ingest_stability (s : LiveState) (inp : FrameInput) :
    (ingest s inp).stabilityCount = stabStep s.stabilityCount inp := rfl

/-- Complete case analysis of `update`: either the frame produces no event
and the state is exactly the ingested state, or a shot is returned, the
cooldown index is set to the current index, and all three gates held. -/
theorem update_cases (s : LiveState) (inp : FrameInput) :
    ((update s inp).1 = ingest s inp ∧ (update s inp).2 = none) ∨
    (∃ shot, (update s inp).2 = some shot ∧
      (update s inp).1 = { ingest s inp with
        lastShotFrame := (((ingest s inp).elbowAngles.length - 1 : ℕ) : ℤ) } ∧
      createShotFromRelease (ingest s inp).elbowAngles
        ((ingest s inp).elbowAngles.length - 1) = some shot ∧
      STABILITY_REQUIRED ≤ (ingest s inp).stabilityCount ∧
      COOLDOWN_FRAMES ≤ (((ingest s inp).elbowAngles.length - 1 : ℕ) : ℤ)
        - (ingest s inp).lastShotFrame ∧
      fireGuard (featAngle inp) (featWristAbove inp) = true) := by
  by_cases h1 : (ingest s inp).stabilityCount < STABILITY_REQUIRED
  · left
    simp only [update]
    rw [if_pos h1]
    exact ⟨rfl, rfl⟩
  by_cases h2 : (((ingest s inp).elbowAngles.length - 1 : ℕ) : ℤ)
      - (ingest s inp).lastShotFrame < COOLDOWN_FRAMES
  · left
    simp only [update]
    rw [if_neg h1, if_pos h2]
    exact ⟨rfl, rfl⟩
  by_cases h3 : fireGuard (featAngle inp) (featWristAbove inp) = true
  · rcases hcs : createShotFromRelease (ingest s inp).elbowAngles
        ((ingest s inp).elbowAngles.length - 1) with _ | shot
    · left
      simp only [update]
      rw [if_neg h1, if_neg h2, if_pos h3, hcs]
      exact ⟨rfl, rfl⟩
    · right
      refine ⟨shot, ?_, ?_, ?_, ?_, ?_, ?_⟩
      · simp only [update]
        rw [if_neg h1, if_neg h2, if_pos h3, hcs]
      · simp only [update]
        rw [if_neg h1, if_neg h2, if_pos h3, hcs]
      · rfl
      · exact not_lt.mp h1
      · exact not_lt.mp h2
      · exact h3
  · left
    simp only [update]
    rw [if_neg h1, if_neg h2, if_neg h3]
    exact ⟨rfl, rfl⟩

theorem ingestDebug_length (s : DebugState) (inp : FrameInput) (fn : ℕ) (ts : ℚ) :
    (ingestDebug s inp fn ts).metricsBuffer.length
      = min (s.metricsBuffer.length + 1) DEBUG_MAX_BUFFER := by
  simp [ingestDebug, trimBuffer_length]

/-- Complete case analysis of `process_frame`, mirroring `update_cases`. -/
theorem processFrame_cases (s : DebugState) (inp : FrameInput) (fn : ℕ) (ts : ℚ) :
    ((processFrame s inp fn ts).1 = ingestDebug s inp fn ts ∧
      (processFrame s inp fn ts).2 = none) ∨
    (∃ shot x, (processFrame s inp fn ts).2 = some shot ∧
      (processFrame s inp fn ts).1 = { ingestDebug s inp fn ts with
        lastShotFrame := (((ingestDebug s inp fn ts).metricsBuffer.length - 1 : ℕ) : ℤ),
        shotCount := (ingestDebug s inp fn ts).shotCount + 1 } ∧
      createShotDebug (ingestDebug s inp fn ts).metricsBuffer
        (ingestDebug s inp fn ts).shotCount
        ((ingestDebug s inp fn ts).metricsBuffer.length - 1) x = some shot ∧
      STABILITY_REQUIRED ≤ (ingestDebug s inp fn ts).stabilityCount ∧
      COOLDOWN_FRAMES ≤ (((ingestDebug s inp fn ts).metricsBuffer.length - 1 : ℕ) : ℤ)
        - (ingestDebug s inp fn ts).lastShotFrame ∧
      featAngle inp = some x ∧ RELEASE_ANGLE < x ∧ featWristAbove inp = true) := by
  by_cases h1 : (ingestDebug s inp fn ts).stabilityCount < STABILITY_REQUIRED
  · left
    simp only [processFrame]
    rw [if_pos h1]
    exact ⟨rfl, rfl⟩
  by_cases h2 : (((ingestDebug s inp fn ts).metricsBuffer.length - 1 : ℕ) : ℤ)
      - (ingestDebug s inp fn ts).lastShotFrame < COOLDOWN_FRAMES
  · left
    simp only [processFrame]
    rw [if_neg h1, if_pos h2]
    exact ⟨rfl, rfl⟩
  cases inp with
  | missing =>
    left
    simp only [processFrame, featAngle]
    rw [if_neg h1, if_neg h2]
    exact ⟨rfl, rfl⟩
  | present a wy sy v =>
    by_cases hg : (decide (a ≠ 0) && decide (RELEASE_ANGLE < a)
        && featWristAbove (FrameInput.present a wy sy v)) = true
    · rcases hcs : createShotDebug
          (ingestDebug s (FrameInput.present a wy sy v) fn ts).metricsBuffer
          (ingestDebug s (FrameInput.present a wy sy v) fn ts).shotCount
          ((ingestDebug s (FrameInput.present a wy sy v) fn ts).metricsBuffer.length - 1) a
          with _ | shot
      · left
        simp only [processFrame, featAngle]
        rw [if_neg h1, if_neg h2, if_pos hg, hcs]
        exact ⟨rfl, rfl⟩
      · right
        have hg2 := hg
        simp only [Bool.and_eq_true, decide_eq_true_eq] at hg2
        refine ⟨shot, a, ?_, ?_, ?_, ?_, ?_, ?_, ?_, ?_⟩
        · simp only [processFrame, featAngle]
          rw [if_neg h1, if_neg h2, if_pos hg, hcs]
        · simp only [processFrame, featAngle]
          rw [if_neg h1, if_neg h2, if_pos hg, hcs]
        · exact hcs
        · exact not_lt.mp h1
        · exact not_lt.mp h2
        · rfl
        · exact hg2.1.2
        · exact hg2.2
    · left
      simp only [processFrame, featAngle]
      rw [if_neg h1, if_neg h2, if_neg hg]
      exact ⟨rfl, rfl⟩

/-! ## Lemmas about `createShotFromRelease` / `createShotDebug` -/

/-- Everything an emitted live shot's fields are built from: the backward
scan's result `(L, M)`, the duration check, and the clamping formulas. -/
theorem createShot_emit (angles : List (Option ℚ)) (R : ℕ) (shot : ShotEvent)
    (h : createShotFromRelease angles R = some shot) :
    MIN_SHOT_FRAMES ≤
        R - (loadScan angles (List.range' (R - 60) (R - (R - 60))) (R, none)).1 ∧
    shot.stance = clampIdx angles.length
        ((loadScan angles (List.range' (R - 60) (R - (R - 60))) (R, none)).1 - 5) ∧
    shot.load = clampIdx angles.length
        (loadScan angles (List.range' (R - 60) (R - (R - 60))) (R, none)).1 ∧
    shot.mid1 = clampIdx angles.length
        ((loadScan angles (List.range' (R - 60) (R - (R - 60))) (R, none)).1 +
          midOffset (R - (loadScan angles (List.range' (R - 60) (R - (R - 60))) (R, none)).1)
            20) ∧
    shot.mid2 = clampIdx angles.length
        ((loadScan angles (List.range' (R - 60) (R - (R - 60))) (R, none)).1 +
          midOffset (R - (loadScan angles (List.range' (R - 60) (R - (R - 60))) (R, none)).1)
            40) ∧
    shot.mid3 = clampIdx angles.length
        ((loadScan angles (List.range' (R - 60) (R - (R - 60))) (R, none)).1 +
          midOffset (R - (loadScan angles (List.range' (R - 60) (R - (R - 60))) (R, none)).1)
            60) ∧
    shot.mid4 = clampIdx angles.length
        ((loadScan angles (List.range' (R - 60) (R - (R - 60))) (R, none)).1 +
          midOffset (R - (loadScan angles (List.range' (R - 60) (R - (R - 60))) (R, none)).1)
            80) ∧
    shot.release = clampIdx angles.length R ∧
    shot.followthrough = clampIdx angles.length (min (R + 5) (angles.length - 1)) ∧
    shot.elbowAngleLoad =
        (loadScan angles (List.range' (R - 60) (R - (R - 60))) (R, none)).2 ∧
    shot.elbowAngleRelease =
        orDefault (if R < angles.length then angles.getD R none else some 0) 170 := by
  simp only [createShotFromRelease] at h
  split at h
  · exact absurd h (by simp)
  · rename_i hd
    obtain rfl : _ = shot := Option.some.inj h
    refine ⟨not_lt.mp hd, rfl, rfl, rfl, rfl, rfl, rfl, rfl, rfl, rfl, rfl⟩

/-- Rejection: a too-short load-to-release distance yields no event. -/
theorem createShot_reject (angles : List (Option ℚ)) (R : ℕ)
    (h : R - (loadScan angles (List.range' (R - 60) (R - (R - 60))) (R, none)).1
      < MIN_SHOT_FRAMES) :
    createShotFromRelease angles R = none := by
  simp only [createShotFromRelease]
  rw [if_pos h]

/-- Debug-variant analogue of `createShot_emit`, with the diagnostic-window
fields included. -/
theorem createShotDebug_emit (buf : List FrameMetrics) (c R : ℕ) (ra : ℚ)
    (shot : DetectedShot)
    (h : createShotDebug buf c R ra = some shot) :
    MIN_SHOT_FRAMES ≤ R - (loadScan (buf.map (fun m => m.elbowAngle))
        (List.range' (R - 60) (R - (R - 60))) (R, none)).1 ∧
    shot.shotNum = c + 1 ∧
    shot.stance = clampIdx buf.length
        ((loadScan (buf.map (fun m => m.elbowAngle))
          (List.range' (R - 60) (R - (R - 60))) (R, none)).1 - 5) ∧
    shot.load = clampIdx buf.length
        (loadScan (buf.map (fun m => m.elbowAngle))
          (List.range' (R - 60) (R - (R - 60))) (R, none)).1 ∧
    shot.release = clampIdx buf.length R ∧
    shot.followthrough = clampIdx buf.length (min (R + 5) (buf.length - 1)) ∧
    shot.frameStart = shot.stance - 10 ∧
    shot.frameEnd = min buf.length (shot.followthrough + 10) ∧
    shot.frameMetrics = (buf.take (min buf.length (shot.followthrough + 10))).drop
        (shot.stance - 10) := by
  simp only [createShotDebug] at h
  split at h
  · exact absurd h (by simp)
  · rename_i hd
    obtain rfl : _ = shot := Option.some.inj h
    refine ⟨not_lt.mp hd, rfl, rfl, rfl, rfl, rfl, rfl, rfl, rfl⟩

/-! ## Arithmetic facts about the mid-point offsets -/

/-- The integer-arithmetic mid-point offset is exactly the rational floor
`⌊d · (n/100)⌋` of the spec's formula. -/
theorem midOffset_eq_floorFrac (d n : ℕ) :
    midOffset d n = floorFrac d ((n : ℚ) / 100) := by
  unfold midOffset floorFrac
  have h : (d : ℚ) * ((n : ℚ) / 100) = (((d * n : ℕ) : ℤ) : ℚ) / ((100 : ℕ) : ℚ) := by
    push_cast
    ring
  rw [h, Rat.floor_intCast_div_natCast]
  have h2 : ((d * n : ℕ) : ℤ) / ((100 : ℕ) : ℤ) = ((d * n / 100 : ℕ) : ℤ) :=
    (Int.natCast_div (d * n) 100).symm
  rw [h2, Int.toNat_ofNat]

theorem midOffset_mono (d : ℕ) {m n : ℕ} (h : m ≤ n) :
    midOffset d m ≤ midOffset d n :=
  Nat.div_le_div_right (Nat.mul_le_mul_left d h)

theorem midOffset_le (d : ℕ) {n : ℕ} (hn : n ≤ 100) :
    midOffset d n ≤ d := by
  unfold midOffset
  calc d * n / 100 ≤ d * 100 / 100 := Nat.div_le_div_right (Nat.mul_le_mul_left d hn)
  _ = d := Nat.mul_div_cancel d (by norm_num)

/-! ## Run-level invariants -/

theorem update_buffer (s : LiveState) (inp : FrameInput) :
    (update s inp).1.elbowAngles = (ingest s inp).elbowAngles := by
  rcases update_cases s inp with ⟨h, _⟩ | ⟨shot, _, h, _⟩ <;> rw [h]

theorem update_length (s : LiveState) (inp : FrameInput) :
    (update s inp).1.elbowAngles.length
      = min (s.elbowAngles.length + 1) MAX_BUFFER := by
  rw [update_buffer, ingest_length]

theorem processFrame_buffer (s : DebugState) (inp : FrameInput) (fn : ℕ) (ts : ℚ) :
    (processFrame s inp fn ts).1.metricsBuffer
      = (ingestDebug s inp fn ts).metricsBuffer := by
  rcases processFrame_cases s inp fn ts with ⟨h, _⟩ | ⟨shot, x, _, h, _⟩ <;> rw [h]

theorem processFrame_length (s : DebugState) (inp : FrameInput) (fn : ℕ) (ts : ℚ) :
    (processFrame s inp fn ts).1.metricsBuffer.length
      = min (s.metricsBuffer.length + 1) DEBUG_MAX_BUFFER := by
  rw [processFrame_buffer, ingestDebug_length]

theorem runLive_length_le (inputs : List FrameInput) :
    (runLive inputs).1.elbowAngles.length ≤ MAX_BUFFER := by
  suffices h : ∀ (l : List FrameInput) (acc : LiveState × List ShotEvent),
      acc.1.elbowAngles.length ≤ MAX_BUFFER →
      (l.foldl liveStep acc).1.elbowAngles.length ≤ MAX_BUFFER by
    exact h inputs (initLive, []) (by simp [initLive, MAX_BUFFER])
  intro l
  induction l with
  | nil => intro acc h; exact h
  | cons i rest ih =>
    intro acc h
    rw [List.foldl_cons]
    apply ih
    show (update acc.1 i).1.elbowAngles.length ≤ MAX_BUFFER
    rw [update_length]
    exact min_le_right _ _

theorem runDebug_length_le (inputs : List FrameInput) :
    (runDebug inputs).1.metricsBuffer.length ≤ DEBUG_MAX_BUFFER := by
  suffices h : ∀ (l : List FrameInput) (acc : DebugState × ℕ × List DetectedShot),
      acc.1.metricsBuffer.length ≤ DEBUG_MAX_BUFFER →
      (l.foldl debugStep acc).1.metricsBuffer.length ≤ DEBUG_MAX_BUFFER by
    exact h inputs (initDebug, 0, []) (by simp [initDebug, DEBUG_MAX_BUFFER])
  intro l
  induction l with
  | nil => intro acc h; exact h
  | cons i rest ih =>
    intro acc h
    rw [List.foldl_cons]
    apply ih
    show (processFrame acc.1 i acc.2.1 (acc.2.1 : ℚ)).1.metricsBuffer.length
        ≤ DEBUG_MAX_BUFFER
    rw [processFrame_length]
    exact min_le_right _ _

/-- Ghost-instrumented live step: alongside the engine state it tracks the
total number of ingested frames and the absolute (never re-based) frame
index of the last accepted shot. -/
def stepAbs (acc : LiveState × ℕ × Option ℕ) (inp : FrameInput) :
    LiveState × ℕ × Option ℕ :=
  ((update acc.1 inp).1, acc.2.1 + 1,
    match (update acc.1 inp).2 with
    | some _ => some acc.2.1
    | none => acc.2.2)

/-- Live run with ghost instrumentation. -/
def runLiveAbs (inputs : List FrameInput) : LiveState × ℕ × Option ℕ :=
  inputs.foldl stepAbs (initLive, 0, none)

/-- The invariant tying the engine's re-based cooldown index to absolute
frame counts: after `t` ingested frames the buffer holds
`min t MAX_BUFFER` of them, and the stored index is the absolute index of
the last accepted shot minus the number of evictions since the start,
clamped at zero (or still the initial `-100` when no shot was ever
accepted, in which case eviction leaves it untouched). -/
def LiveInv : LiveState × ℕ × Option ℕ → Prop
  | (s, t, absIdx) =>
    s.elbowAngles.length = min t MAX_BUFFER ∧
    (match absIdx with
     | none => s.lastShotFrame = -100
     | some A => A < t ∧
        s.lastShotFrame = max ((A : ℤ) - ((t - min t MAX_BUFFER : ℕ) : ℤ)) 0)

theorem liveInv_init : LiveInv (initLive, 0, none) := by
  exact ⟨by simp [initLive], rfl⟩

theorem liveInv_step (acc : LiveState × ℕ × Option ℕ) (inp : FrameInput)
    (h : LiveInv acc) : LiveInv (stepAbs acc inp) := by
  obtain ⟨s, t, absIdx⟩ := acc
  obtain ⟨hlen, habs⟩ := h
  have hlen2 : (update s inp).1.elbowAngles.length = min (t + 1) MAX_BUFFER := by
    rw [update_length, hlen]
    omega
  rcases update_cases s inp with ⟨hst, hev⟩ | ⟨shot, hev, hst, _, _, _, _⟩
  · simp only [stepAbs, hev]
    refine ⟨hlen2, ?_⟩
    cases absIdx with
    | none =>
      simp only [LiveInv] at habs ⊢
      rw [hst, ingest_last, habs]
      omega
    | some A =>
      obtain ⟨hAt, hlast⟩ := habs
      refine ⟨by omega, ?_⟩
      rw [hst, ingest_last, hlast, hlen]
      omega
  · simp only [stepAbs, hev]
    refine ⟨hlen2, ?_, ?_⟩
    · omega
    · rw [hst]
      show (((ingest s inp).elbowAngles.length - 1 : ℕ) : ℤ) = _
      rw [ingest_length, hlen]
      omega

theorem liveInv_run (inputs : List FrameInput) : LiveInv (runLiveAbs inputs) := by
  suffices h : ∀ (l : List FrameInput) (acc : LiveState × ℕ × Option ℕ),
      LiveInv acc → LiveInv (l.foldl stepAbs acc) by
    exact h inputs (initLive, 0, none) liveInv_init
  intro l
  induction l with
  | nil => intro acc h; exact h
  | cons i rest ih => intro acc h; exact ih _ (liveInv_step acc i h)

/-- The ghost-instrumented run steps exactly the engine state of `runLive`. -/
theorem runLiveAbs_fst (inputs : List FrameInput) :
    (runLiveAbs inputs).1 = (runLive inputs).1 := by
  suffices h : ∀ (l : List FrameInput) (s : LiveState) (t : ℕ) (ab : Option ℕ)
      (evs : List ShotEvent),
      (l.foldl stepAbs (s, t, ab)).1 = (l.foldl liveStep (s, evs)).1 by
    exact h inputs initLive 0 none []
  intro l
  induction l with
  | nil => intros; rfl
  | cons i rest ih =>
    intro s t ab evs
    simp only [List.foldl_cons]
    exact ih (update s i).1 (t + 1) _ _

/-- The ghost frame counter counts the ingested frames. -/
theorem runLiveAbs_count (inputs : List FrameInput) :
    (runLiveAbs inputs).2.1 = inputs.length := by
  suffices h : ∀ (l : List FrameInput) (acc : LiveState × ℕ × Option ℕ),
      (l.foldl stepAbs acc).2.1 = acc.2.1 + l.length by
    exact (h inputs (initLive, 0, none)).trans (by simp)
  intro l
  induction l with
  | nil => intro acc; simp
  | cons i rest ih =>
    intro acc
    rw [List.foldl_cons, ih]
    show (acc.2.1 + 1) + rest.length = _
    simp [List.length_cons]
    omega

/-! ## Master descriptions of an emitted shot's fields -/

/-- Every field of a shot emitted by `update`, after the clamps are
simplified away using the emission context (the release index is the
newest buffer index). -/
theorem update_emit (s : LiveState) (inp : FrameInput) (shot : ShotEvent)
    (h : (update s inp).2 = some shot) :
    ∃ (L len : ℕ),
      len = (ingest s inp).elbowAngles.length ∧
      1 ≤ len ∧ L ≤ len - 1 ∧
      L = (loadScan (ingest s inp).elbowAngles
        (List.range' (len - 1 - 60) (len - 1 - (len - 1 - 60))) (len - 1, none)).1 ∧
      MIN_SHOT_FRAMES ≤ (len - 1) - L ∧
      shot.stance = L - 5 ∧
      shot.load = L ∧
      shot.mid1 = L + midOffset (len - 1 - L) 20 ∧
      shot.mid2 = L + midOffset (len - 1 - L) 40 ∧
      shot.mid3 = L + midOffset (len - 1 - L) 60 ∧
      shot.mid4 = L + midOffset (len - 1 - L) 80 ∧
      shot.release = len - 1 ∧
      shot.followthrough = len - 1 ∧
      (update s inp).1.elbowAngles = (ingest s inp).elbowAngles := by
  rcases update_cases s inp with ⟨_, hev⟩ | ⟨shot2, hev, hst, hcs, _, _, _⟩
  · rw [h] at hev
    exact absurd hev (by simp)
  · obtain rfl : shot = shot2 := Option.some.inj (h.symm.trans hev)
    have hlen1 : 1 ≤ (ingest s inp).elbowAngles.length := by
      rw [ingest_length]
      simp only [MAX_BUFFER]
      omega
    obtain ⟨hd, h2, h3, h4, h5, h6, h7, h8, h9, _, _⟩ :=
      createShot_emit (ingest s inp).elbowAngles
        ((ingest s inp).elbowAngles.length - 1) shot hcs
    have hLR := loadScan_fst_le (ingest s inp).elbowAngles
      ((ingest s inp).elbowAngles.length - 1)
    refine ⟨_, _, rfl, hlen1, hLR, rfl, hd, ?_, ?_, ?_, ?_, ?_, ?_, ?_, ?_, ?_⟩
    · rw [h2]; unfold clampIdx; omega
    · rw [h3]; unfold clampIdx; omega
    · rw [h4]; unfold clampIdx
      have := midOffset_le ((ingest s inp).elbowAngles.length - 1 -
        (loadScan (ingest s inp).elbowAngles
          (List.range' ((ingest s inp).elbowAngles.length - 1 - 60)
            ((ingest s inp).elbowAngles.length - 1 -
              ((ingest s inp).elbowAngles.length - 1 - 60)))
          ((ingest s inp).elbowAngles.length - 1, none)).1)
        (n := 20) (by norm_num)
      omega
    · rw [h5]; unfold clampIdx
      have := midOffset_le ((ingest s inp).elbowAngles.length - 1 -
        (loadScan (ingest s inp).elbowAngles
          (List.range' ((ingest s inp).elbowAngles.length - 1 - 60)
            ((ingest s inp).elbowAngles.length - 1 -
              ((ingest s inp).elbowAngles.length - 1 - 60)))
          ((ingest s inp).elbowAngles.length - 1, none)).1)
        (n := 40) (by norm_num)
      omega
    · rw [h6]; unfold clampIdx
      have := midOffset_le ((ingest s inp).elbowAngles.length - 1 -
        (loadScan (ingest s inp).elbowAngles
          (List.range' ((ingest s inp).elbowAngles.length - 1 - 60)
            ((ingest s inp).elbowAngles.length - 1 -
              ((ingest s inp).elbowAngles.length - 1 - 60)))
          ((ingest s inp).elbowAngles.length - 1, none)).1)
        (n := 60) (by norm_num)
      omega
    · rw [h7]; unfold clampIdx
      have := midOffset_le ((ingest s inp).elbowAngles.length - 1 -
        (loadScan (ingest s inp).elbowAngles
          (List.range' ((ingest s inp).elbowAngles.length - 1 - 60)
            ((ingest s inp).elbowAngles.length - 1 -
              ((ingest s inp).elbowAngles.length - 1 - 60)))
          ((ingest s inp).elbowAngles.length - 1, none)).1)
        (n := 80) (by norm_num)
      omega
    · rw [h8]; unfold clampIdx; omega
    · rw [h9]; unfold clampIdx; omega
    · rw [hst]

/-- Every field of a shot emitted by `process_frame` that the claims use,
after the clamps are simplified away using the emission context. -/
theorem processFrame_emit (sd : DebugState) (inp : FrameInput) (fn : ℕ) (ts : ℚ)
    (d : DetectedShot) (h : (processFrame sd inp fn ts).2 = some d) :
    ∃ len : ℕ,
      len = (ingestDebug sd inp fn ts).metricsBuffer.length ∧
      1 ≤ len ∧
      d.release = len - 1 ∧
      d.followthrough = len - 1 ∧
      d.frameStart = d.stance - 10 ∧
      d.frameEnd = min len (d.followthrough + 10) ∧
      d.frameMetrics = ((ingestDebug sd inp fn ts).metricsBuffer.take
        (min len (d.followthrough + 10))).drop (d.stance - 10) ∧
      (processFrame sd inp fn ts).1.metricsBuffer
        = (ingestDebug sd inp fn ts).metricsBuffer := by
  rcases processFrame_cases sd inp fn ts with ⟨_, hev⟩ | ⟨d2, x, hev, hst, hcs, _, _, _, _, _⟩
  · rw [h] at hev
    exact absurd hev (by simp)
  · obtain rfl : d = d2 := Option.some.inj (h.symm.trans hev)
    have hlen1 : 1 ≤ (ingestDebug sd inp fn ts).metricsBuffer.length := by
      rw [ingestDebug_length]
      simp only [DEBUG_MAX_BUFFER]
      omega
    obtain ⟨_, _, _, _, h5, h6, h7, h8, h9⟩ :=
      createShotDebug_emit (ingestDebug sd inp fn ts).metricsBuffer
        (ingestDebug sd inp fn ts).shotCount
        ((ingestDebug sd inp fn ts).metricsBuffer.length - 1) x d hcs
    have hrel : d.release = (ingestDebug sd inp fn ts).metricsBuffer.length - 1 := by
      rw [h5]; unfold clampIdx; omega
    have hfol : d.followthrough = (ingestDebug sd inp fn ts).metricsBuffer.length - 1 := by
      rw [h6]; unfold clampIdx; omega
    refine ⟨_, rfl, hlen1, hrel, hfol, h7, h8, h9, ?_⟩
    rw [hst]

/-! ## Concrete inputs used by the witnesses -/

/-- `n` identical high-confidence frames: elbow at 170°, wrist (y = 0)
above the shoulder (y = 1). -/
def flatInputs (n : ℕ) : List FrameInput :=
  (List.range n).map (fun _ => FrameInput.present 170 0 1 true)

/-- A live state holding 15 flat frames at 170° with the stability counter
one short of the gate; the next flat frame fires and is accepted. -/
def witState : LiveState := ⟨List.replicate 15 (some 170), 7, -100⟩

/-- One more flat frame at 170°. -/
def witInput : FrameInput := FrameInput.present 170 0 1 true

/-- The shot `update witState witInput` emits. -/
def witShot : ShotEvent := ⟨0, 0, 3, 6, 9, 12, 15, 15, some 170, 170⟩

/-- A window of angles with the minimum 150° occurring twice (indices 2
and 4); the scan must choose index 2. -/
def witAngles : List (Option ℚ) :=
  [some 170, some 160, some 150, some 160, some 150, some 170]

/-! ## The claims -/

/-- **C1.** For every sequence of ingested frames, the ring buffer's length
never exceeds its configured capacity (180 in the live variant, 200 in the
debug variant); whenever `k` elements are evicted the stored
last-accepted-event index is decremented by exactly `k`, clamped so it
never goes below zero; and consequently, for any given true elapsed-frame
distance since the last accepted event, the cooldown check (buffer-tail
index minus stored index ≥ cooldown) passes iff it would have passed with
no eviction at all (the true distance being measured by the ghost
instrumentation of `runLiveAbs`, whose engine state equals `runLive`'s by
`runLiveAbs_fst`). -/
theorem c1_ring_buffer_cooldown_rebase (inputs : List FrameInput) :
    (runLive inputs).1.elbowAngles.length ≤ 180 ∧
    (runDebug inputs).1.metricsBuffer.length ≤ 200 ∧
    (∀ (buf : List (Option ℚ)) (cap : ℕ) (last : ℤ), 0 ≤ last →
      (trimBuffer cap buf last).2
        = max (last - ((buf.length - (trimBuffer cap buf last).1.length : ℕ) : ℤ)) 0) ∧
    (∀ A : ℕ, (runLiveAbs inputs).2.2 = some A →
      (COOLDOWN_FRAMES ≤ (((runLiveAbs inputs).1.elbowAngles.length - 1 : ℕ) : ℤ)
          - (runLiveAbs inputs).1.lastShotFrame ↔
        COOLDOWN_FRAMES ≤ ((inputs.length : ℤ) - 1) - (A : ℤ))) := by
  refine ⟨by simpa [MAX_BUFFER] using runLive_length_le inputs,
    by simpa [DEBUG_MAX_BUFFER] using runDebug_length_le inputs, ?_, ?_⟩
  · intro buf cap last hlast
    rw [trimBuffer_length, trimBuffer_last]
    omega
  · intro A hA
    have hinv := liveInv_run inputs
    have hcnt := runLiveAbs_count inputs
    rcases hr : runLiveAbs inputs with ⟨s, t, ab⟩
    rw [hr] at hinv hcnt hA
    obtain rfl : ab = some A := hA
    obtain ⟨hlen, hAt, hlast⟩ := hinv
    simp only at hcnt
    rw [← hcnt]
    simp only [MAX_BUFFER, COOLDOWN_FRAMES] at hlen hlast ⊢
    rw [hlen, hlast]
    omega

/-- Witness for **C1**: a concrete trim re-bases the stored index, and
after the 20-frame flat run (one accepted shot at absolute frame 10) both
cooldown formulations agree. -/
theorem c1_witness :
    (0 : ℤ) ≤ 2 ∧
    (trimBuffer 3 witAngles 2).2
      = max ((2 : ℤ) - ((witAngles.length - (trimBuffer 3 witAngles 2).1.length : ℕ) : ℤ)) 0 ∧
    (runLiveAbs (flatInputs 20)).2.2 = some 10 ∧
    (COOLDOWN_FRAMES ≤ (((runLiveAbs (flatInputs 20)).1.elbowAngles.length - 1 : ℕ) : ℤ)
        - (runLiveAbs (flatInputs 20)).1.lastShotFrame ↔
      COOLDOWN_FRAMES ≤ (((flatInputs 20).length : ℤ) - 1) - ((10 : ℕ) : ℤ)) :=
  ⟨by decide,
    (c1_ring_buffer_cooldown_rebase (flatInputs 20)).2.2.1 witAngles 3 2 (by decide),
    by decide,
    (c1_ring_buffer_cooldown_rebase (flatInputs 20)).2.2.2 10 (by decide)⟩

/-- **C2.** `update` returns a shot only if, at the current (newest) frame:
the stability counter has reached the required run length (8), at least the
cooldown number of frames (45) has elapsed since the last accepted event's
stored buffer index, the primary elbow angle is defined and exceeds the
release threshold (155°), and the wrist-above-shoulder flag is true.
Failing any gate yields `none` — `update` is a total function, so no error
is ever raised. -/
theorem c2_release_gate_necessary (s : LiveState) (inp : FrameInput) (shot : ShotEvent)
    (h : (update s inp).2 = some shot) :
    STABILITY_REQUIRED ≤ (update s inp).1.stabilityCount ∧
    COOLDOWN_FRAMES ≤ (((ingest s inp).elbowAngles.length - 1 : ℕ) : ℤ)
      - (ingest s inp).lastShotFrame ∧
    (∃ a wy sy v, inp = FrameInput.present a wy sy v ∧ RELEASE_ANGLE < a ∧ wy < sy) := by
  rcases update_cases s inp with ⟨_, hev⟩ | ⟨shot2, hev, hst, _, hstab, hcool, hfire⟩
  · rw [h] at hev
    exact absurd hev (by simp)
  · refine ⟨?_, hcool, ?_⟩
    · rw [hst]
      exact hstab
    · cases inp with
      | missing => simp [fireGuard, featAngle] at hfire
      | present a wy sy v =>
        simp only [fireGuard, featAngle, featWristAbove, Bool.and_eq_true,
          decide_eq_true_eq] at hfire
        exact ⟨a, wy, sy, v, rfl, hfire.1.2, hfire.2⟩

/-- Witness for **C2** at the concrete accepted shot. -/
theorem c2_witness :
    (update witState witInput).2 = some witShot ∧
    STABILITY_REQUIRED ≤ (update witState witInput).1.stabilityCount :=
  ⟨by decide, (c2_release_gate_necessary witState witInput witShot (by decide)).1⟩

/-- **C3.** When no shot is emitted (in particular when the release rule
fired but the backward load locator rejected the candidate), the state is
exactly the ingested state: buffers and stability updated by ingestion
only, and the stored cooldown index merely re-based by the trim — not set.
The cooldown index is set to the current index exactly when a shot is
emitted. -/
theorem c3_rejection_no_side_effect (s : LiveState) (inp : FrameInput) :
    ((update s inp).2 = none → (update s inp).1 = ingest s inp) ∧
    (∀ shot, (update s inp).2 = some shot →
      (update s inp).1 = { ingest s inp with
        lastShotFrame := (((ingest s inp).elbowAngles.length - 1 : ℕ) : ℤ) }) := by
  rcases update_cases s inp with ⟨hst, hev⟩ | ⟨shot2, hev, hst, _⟩
  · refine ⟨fun _ => hst, fun shot h => ?_⟩
    rw [hev] at h
    exact absurd h (by simp)
  · refine ⟨fun h => ?_, fun shot h => hst⟩
    rw [hev] at h
    exact absurd h (by simp)

/-- Witness for **C3**: a rejected candidate (16th flat frame at 170° but
with only 4 frames of history, so the duration check fails) leaves the
state exactly at its ingested value, and the accepted shot from
`witState` sets the cooldown index to the current index 15. -/
theorem c3_witness :
    (update ⟨List.replicate 4 (some 170), 7, -100⟩ witInput).2 = none ∧
    (update ⟨List.replicate 4 (some 170), 7, -100⟩ witInput).1
      = ingest ⟨List.replicate 4 (some 170), 7, -100⟩ witInput ∧
    (update witState witInput).2 = some witShot ∧
    (update witState witInput).1 = { ingest witState witInput with
      lastShotFrame := (((ingest witState witInput).elbowAngles.length - 1 : ℕ) : ℤ) } :=
  ⟨by decide,
    (c3_rejection_no_side_effect ⟨List.replicate 4 (some 170), 7, -100⟩ witInput).1 (by decide),
    by decide,
    (c3_rejection_no_side_effect witState witInput).2 witShot (by decide)⟩

/-- A defined buffer entry is an element of the buffer. -/
theorem getD_some_mem (angles : List (Option ℚ)) (j : ℕ) (x : ℚ)
    (h : angles.getD j none = some x) : some x ∈ angles := by
  rcases hj : angles[j]? with _ | a
  · rw [List.getD_eq_getElem?_getD, hj] at h
    exact absurd h (by simp)
  · rw [List.getD_eq_getElem?_getD, hj] at h
    simp only [Option.getD_some] at h
    rw [← h]
    exact List.getElem?_mem hj

/-- **C4.** Given release buffer index `R`, the load index `L` chosen by
the backward search is the index of the minimum defined primary angle in
the window `[max(0, R-60), R)`, with ties resolved to the earliest such
index, and undefined frames skipped.  The hypothesis that every defined
angle is positive is guaranteed by the source: `_calculate_angle` returns
`degrees(arccos(clip(c, -1, 1)))` with `c = dot/(‖v1‖‖v2‖ + 1e-6)` strictly
below `1`, so a defined angle lies in `(0°, 180°]` and is never the float
`0.0` that Python truthiness would otherwise make the loop skip. -/
theorem c4_load_earliest_minimum (angles : List (Option ℚ)) (R L : ℕ) (m : ℚ)
    (hpos : ∀ x : ℚ, some x ∈ angles → 0 < x)
    (hscan : loadScan angles (List.range' (R - 60) (R - (R - 60))) (R, none)
      = (L, some m)) :
    R - 60 ≤ L ∧ L < R ∧ angles.getD L none = some m ∧
    (∀ j, R - 60 ≤ j → j < R → ∀ x, angles.getD j none = some x → m ≤ x) ∧
    (∀ j, R - 60 ≤ j → j < L → ∀ x, angles.getD j none = some x → m < x) := by
  have hx0 : ∀ (j : ℕ) (x : ℚ), angles.getD j none = some x → x ≠ 0 := by
    intro j x h
    exact ne_of_gt (hpos x (getD_some_mem angles j x h))
  have hmem : ∀ j, R - 60 ≤ j → j < R → j ∈ List.range' (R - 60) (R - (R - 60)) := by
    intro j h1 h2
    rw [List.mem_range'_1]
    omega
  have hfst : (loadScan angles (List.range' (R - 60) (R - (R - 60))) (R, none)).1 = L := by
    rw [hscan]
  have hsnd : (loadScan angles (List.range' (R - 60) (R - (R - 60))) (R, none)).2
      = some m := by
    rw [hscan]
  have hbounds : R - 60 ≤ L ∧ L < R := by
    rcases loadScan_cases angles (List.range' (R - 60) (R - (R - 60))) R none with
      hc | ⟨m2, _, _, _, hmemL, _⟩
    · rw [hscan] at hc
      have : some m = none := congrArg Prod.snd hc
      exact absurd this (by simp)
    · rw [hfst] at hmemL
      have := List.mem_range'_1.mp hmemL
      omega
  have hgdL : angles.getD L none = some m := by
    rcases loadScan_cases angles (List.range' (R - 60) (R - (R - 60))) R none with
      hc | ⟨m2, hm2, _, _, _, hgd⟩
    · rw [hscan] at hc
      have : some m = none := congrArg Prod.snd hc
      exact absurd this (by simp)
    · rw [hsnd] at hm2
      rw [hfst] at hgd
      rw [hgd, hm2]
  refine ⟨hbounds.1, hbounds.2, hgdL, ?_, ?_⟩
  · intro j hj1 hj2 x hgdx
    obtain ⟨m3, hm3, hle⟩ := loadScan_min angles (List.range' (R - 60) (R - (R - 60)))
      R none j (hmem j hj1 hj2) x hgdx (hx0 j x hgdx)
    rw [hsnd] at hm3
    rw [Option.some.inj hm3]
    exact hle
  · intro j hj1 hjL x hgdx
    obtain ⟨m3, hm3, hlt⟩ := loadScan_earliest angles
      (List.range' (R - 60) (R - (R - 60))) R none
      (List.pairwise_lt_range' (R - 60) (R - (R - 60))) (Or.inl rfl)
      j (hmem j hj1 (lt_of_lt_of_le hjL (le_of_lt hbounds.2))) (by rw [hfst]; exact hjL)
      x hgdx (hx0 j x hgdx)
    rw [hsnd] at hm3
    rw [Option.some.inj hm3]
    exact hlt

/-- Witness for **C4**: a window with the minimum 150° at indices 2 and 4;
the scan picks index 2, the earliest. -/
theorem c4_witness :
    loadScan witAngles (List.range' (6 - 60) (6 - (6 - 60))) (6, none) = (2, some 150) ∧
    6 - 60 ≤ 2 ∧ 2 < 6 ∧ witAngles.getD 2 none = some 150 :=
  ⟨by decide,
    (c4_load_earliest_minimum witAngles 6 2 150
      (by
        intro x hx
        simp only [witAngles, List.mem_cons, List.not_mem_nil, or_false] at hx
        rcases hx with h | h | h | h | h | h <;>
          (obtain rfl := Option.some.inj h; norm_num))
      (by decide)).1,
    (c4_load_earliest_minimum witAngles 6 2 150
      (by
        intro x hx
        simp only [witAngles, List.mem_cons, List.not_mem_nil, or_false] at hx
        rcases hx with h | h | h | h | h | h <;>
          (obtain rfl := Option.some.inj h; norm_num))
      (by decide)).2.1,
    (c4_load_earliest_minimum witAngles 6 2 150
      (by
        intro x hx
        simp only [witAngles, List.mem_cons, List.not_mem_nil, or_false] at hx
        rcases hx with h | h | h | h | h | h <;>
          (obtain rfl := Option.some.inj h; norm_num))
      (by decide)).2.2.1⟩

/-- **C5.** Every shot emitted by `update` has
`release − load ≥ MIN_SHOT_FRAMES` (= 10), and a candidate whose
load-to-release distance is smaller is rejected:
`_create_shot_from_release` returns `None` and no event is emitted. -/
theorem c5_minimum_duration (s : LiveState) (inp : FrameInput) (shot : ShotEvent)
    (h : (update s inp).2 = some shot) :
    shot.load + MIN_SHOT_FRAMES ≤ shot.release ∧
    (∀ (angles : List (Option ℚ)) (R : ℕ),
      R - (loadScan angles (List.range' (R - 60) (R - (R - 60))) (R, none)).1
        < MIN_SHOT_FRAMES →
      createShotFromRelease angles R = none) := by
  obtain ⟨L, len, _, hlen1, hLR, _, hd, _, hload, _, _, _, _, hrel, _, _⟩ :=
    update_emit s inp shot h
  refine ⟨?_, fun angles R hR => createShot_reject angles R hR⟩
  rw [hload, hrel]
  simp only [MIN_SHOT_FRAMES] at hd ⊢
  omega

/-- Witness for **C5**: the accepted 16-frame shot has duration 15 ≥ 10,
and a 5-frame history is rejected. -/
theorem c5_witness :
    (update witState witInput).2 = some witShot ∧
    witShot.load + MIN_SHOT_FRAMES ≤ witShot.release ∧
    createShotFromRelease (List.replicate 5 (some 170)) 4 = none :=
  ⟨by decide,
    (c5_minimum_duration witState witInput witShot (by decide)).1,
    (c5_minimum_duration witState witInput witShot (by decide)).2
      (List.replicate 5 (some 170)) 4 (by decide)⟩

/-- **C6.** For every shot emitted by `update`, the eight key-frame indices
are chained `0 ≤ stance ≤ load ≤ mid1 ≤ mid2 ≤ mid3 ≤ mid4 ≤ release ≤
follow-through ≤ buffer length − 1`, with
`midᵢ = load + ⌊fᵢ·(release − load)⌋` for the fractions
20/40/60/80 %, `stance = max(0, load − 5)` (Nat subtraction),
`follow-through = min(release + 5, buffer length − 1)`, every index being
(idempotently) clamped into `[0, buffer length − 1]`. -/
theorem c6_keyframe_chain (s : LiveState) (inp : FrameInput) (shot : ShotEvent)
    (h : (update s inp).2 = some shot) :
    (shot.stance ≤ shot.load ∧ shot.load ≤ shot.mid1 ∧ shot.mid1 ≤ shot.mid2 ∧
      shot.mid2 ≤ shot.mid3 ∧ shot.mid3 ≤ shot.mid4 ∧ shot.mid4 ≤ shot.release ∧
      shot.release ≤ shot.followthrough ∧
      shot.followthrough ≤ (update s inp).1.elbowAngles.length - 1) ∧
    shot.stance = shot.load - 5 ∧
    shot.mid1 = shot.load + floorFrac (shot.release - shot.load) (20/100) ∧
    shot.mid2 = shot.load + floorFrac (shot.release - shot.load) (40/100) ∧
    shot.mid3 = shot.load + floorFrac (shot.release - shot.load) (60/100) ∧
    shot.mid4 = shot.load + floorFrac (shot.release - shot.load) (80/100) ∧
    shot.followthrough
      = min (shot.release + 5) ((update s inp).1.elbowAngles.length - 1) := by
  obtain ⟨L, len, hlen, hlen1, hLR, _, hd, hstance, hload, hm1, hm2, hm3, hm4,
    hrel, hfol, hbuf⟩ := update_emit s inp shot h
  have hlenu : (update s inp).1.elbowAngles.length = len := by
    rw [hbuf, hlen]
  have hdur : shot.release - shot.load = len - 1 - L := by
    rw [hload, hrel]
  have hff : ∀ n : ℕ, floorFrac (shot.release - shot.load) ((n : ℚ) / 100)
      = midOffset (len - 1 - L) n := by
    intro n
    rw [hdur, midOffset_eq_floorFrac]
  have hb20 : (20 : ℚ)/100 = ((20 : ℕ) : ℚ)/100 := by norm_num
  have hb40 : (40 : ℚ)/100 = ((40 : ℕ) : ℚ)/100 := by norm_num
  have hb60 : (60 : ℚ)/100 = ((60 : ℕ) : ℚ)/100 := by norm_num
  have hb80 : (80 : ℚ)/100 = ((80 : ℕ) : ℚ)/100 := by norm_num
  have hmono12 : midOffset (len - 1 - L) 20 ≤ midOffset (len - 1 - L) 40 :=
    midOffset_mono _ (by norm_num)
  have hmono23 : midOffset (len - 1 - L) 40 ≤ midOffset (len - 1 - L) 60 :=
    midOffset_mono _ (by norm_num)
  have hmono34 : midOffset (len - 1 - L) 60 ≤ midOffset (len - 1 - L) 80 :=
    midOffset_mono _ (by norm_num)
  have hle4 : midOffset (len - 1 - L) 80 ≤ len - 1 - L :=
    midOffset_le _ (by norm_num)
  refine ⟨⟨?_, ?_, ?_, ?_, ?_, ?_, ?_, ?_⟩, ?_, ?_, ?_, ?_, ?_, ?_⟩
  · rw [hstance, hload]; omega
  · rw [hload, hm1]; omega
  · rw [hm1, hm2]; omega
  · rw [hm2, hm3]; omega
  · rw [hm3, hm4]; omega
  · rw [hm4, hrel]; omega
  · rw [hrel, hfol]
  · rw [hfol, hlenu]
  · rw [hstance, hload]
  · rw [hb20, hff 20, hm1, hload]
  · rw [hb40, hff 40, hm2, hload]
  · rw [hb60, hff 60, hm3, hload]
  · rw [hb80, hff 80, hm4, hload]
  · rw [hfol, hrel, hlenu]
    omega

/-- Witness for **C6** at the concrete accepted shot. -/
theorem c6_witness :
    (update witState witInput).2 = some witShot ∧
    witShot.stance ≤ witShot.load ∧ witShot.mid4 ≤ witShot.release :=
  ⟨by decide,
    (c6_keyframe_chain witState witInput witShot (by decide)).1.1,
    (c6_keyframe_chain witState witInput witShot (by decide)).1.2.2.2.2.2.1⟩

/-- The elbow-angle profile of the spec's C7 scenario: 60 frames at 170°,
20 frames descending linearly to 80° (4.5°/frame, reaching 80° at frame
79), then 15 frames rising linearly back to 170° (6°/frame, reaching 170°
at frame 94); the reference-above flag is true and confidence full on
every frame. -/
def c7Angle (k : ℕ) : ℚ :=
  if k < 60 then 170
  else if k < 80 then Rat.divInt (340 - 9 * ((k : ℤ) - 59)) 2
  else Rat.divInt (80 + 6 * ((k : ℤ) - 79)) 1

/-- The 95-frame input sequence of the spec's C7 scenario. -/
def c7Inputs : List FrameInput :=
  (List.range 95).map (fun k => FrameInput.present (c7Angle k) 0 1 true)

set_option maxRecDepth 100000 in
/-- Counterexample to **C7** as stated: the scenario does not produce
exactly one event with release index 94.  During the flat
stability-building phase the release rule is already satisfied (angle
170° > 155°, wrist above shoulder, stability ≥ 8 from frame 7, cooldown
vacuous from the initial `last_shot_frame = -100`), so a shot is accepted
as soon as the duration check first passes — at index 10 with load index
0 — and another at index 55 once the 45-frame cooldown elapses; the
cooldown from 55 then lasts through frame 100 and suppresses any event at
index 94. -/
theorem c7_counterexample :
    (runLive c7Inputs).2.map (fun e => e.release) = [10, 55] ∧
    ¬((runLive c7Inputs).2.length = 1 ∧
      ∀ e ∈ (runLive c7Inputs).2, e.release = 94) := by
  have hmap : (runLive c7Inputs).2.map (fun e => e.release) = [10, 55] := by decide
  refine ⟨hmap, fun hc => ?_⟩
  have hlen : (runLive c7Inputs).2.length = 2 := by
    have := congrArg List.length hmap
    simpa using this
  rw [hc.1] at hlen
  exact absurd hlen (by norm_num)

set_option maxRecDepth 100000 in
/-- **C7 amended**: the scenario produces exactly two emitted events, at
release indices 10 and 55, each with load index 0 and load angle 170°
(the first minimum of the flat 170° phase); no event is emitted at index
94, because the cooldown from the event at 55 extends through frame 100. -/
theorem c7_amended :
    (runLive c7Inputs).2.map (fun e => (e.release, e.load, e.elbowAngleLoad))
      = [(10, 0, some 170), (55, 0, some 170)] := by decide

/-- **C8.** Every shot emitted by the debug variant carries a diagnostic
slice of the per-frame metrics history spanning exactly the frames from
10 before the stance index through 10 after the follow-through index,
clamped to the valid buffer range `[0, length − 1]` (stated as
`take (min (length − 1) (followthrough + 10) + 1) ∘ drop (stance − 10)`,
the inclusive clamped span; Nat subtraction supplies the lower clamp).
The feature-history slice exists only in the debug variant's
`DetectedShot`; the live `ShotEvent` carries the eight key frames and
scalar features only. -/
theorem c8_diagnostic_slice (sd : DebugState) (inp : FrameInput) (fn : ℕ) (ts : ℚ)
    (d : DetectedShot) (h : (processFrame sd inp fn ts).2 = some d) :
    d.frameMetrics = (((processFrame sd inp fn ts).1.metricsBuffer.take
        (min ((processFrame sd inp fn ts).1.metricsBuffer.length - 1)
          (d.followthrough + 10) + 1)).drop (d.stance - 10)) ∧
    d.frameStart = d.stance - 10 ∧
    d.frameEnd = min (processFrame sd inp fn ts).1.metricsBuffer.length
      (d.followthrough + 10) := by
  obtain ⟨len, hlen, hlen1, hrel, hfol, hfs, hfe, hfm, hbuf⟩ :=
    processFrame_emit sd inp fn ts d h
  have hlenu : (processFrame sd inp fn ts).1.metricsBuffer.length = len := by
    rw [hbuf, hlen]
  have hmin : min (len - 1) (d.followthrough + 10) + 1
      = min len (d.followthrough + 10) := by
    rw [hfol]
    omega
  refine ⟨?_, hfs, ?_⟩
  · rw [hfm, hbuf, ← hlen, hmin]
  · rw [hfe, hlenu]

/-- One processed metrics record for the witnesses. -/
def witMetric : FrameMetrics := ⟨0, 0, some 170, some 0, true⟩

/-- A debug state holding 15 flat frames with the stability counter one
short of the gate. -/
def witDebugState : DebugState := ⟨List.replicate 15 witMetric, 7, -100, 0⟩

/-- The shot `processFrame witDebugState witInput 15 15` emits: the
diagnostic window covers the whole 16-frame buffer. -/
def witDShot : DetectedShot :=
  ⟨1, 0, 16, 0, 0, 3, 6, 9, 12, 15, 15, some 170, 170,
    List.replicate 15 witMetric ++ [⟨15, 15, some 170, some 0, true⟩]⟩

/-- Witness for **C8** at the concrete accepted debug shot. -/
theorem c8_witness :
    (processFrame witDebugState witInput 15 15).2 = some witDShot ∧
    witDShot.frameStart = witDShot.stance - 10 :=
  ⟨by decide,
    (c8_diagnostic_slice witDebugState witInput 15 15 witDShot (by decide)).2.1⟩

/-- The detection-relevant signature of an emitted event: the eight
key-frame indices and the two angle values. -/
def eventSig (e : ShotEvent) :
    ℕ × ℕ × ℕ × ℕ × ℕ × ℕ × ℕ × ℕ × Option ℚ × ℚ :=
  (e.stance, e.load, e.mid1, e.mid2, e.mid3, e.mid4, e.release, e.followthrough,
    e.elbowAngleLoad, e.elbowAngleRelease)

/-- **C9.** Replaying the same frame-input sequence through freshly
initialised detectors with identical configuration yields identical
event sequences (same key-frame indices, same load/release angle
values): the embedded detection logic is a pure function of its inputs,
with no randomness and no wall-clock reads (the only wall-clock datum in
the source's `ShotEvent`, the `timestamp` field, is outside the
detection logic and outside the claim's scope). -/
theorem c9_determinism (ins1 ins2 : List FrameInput) (h : ins1 = ins2) :
    (runLive ins1).2.map eventSig = (runLive ins2).2.map eventSig := by
  rw [h]

/-- Witness for **C9** at a concrete replayed input. -/
theorem c9_witness :
    flatInputs 20 = flatInputs 20 ∧
    (runLive (flatInputs 20)).2.map eventSig
      = (runLive (flatInputs 20)).2.map eventSig :=
  ⟨rfl, c9_determinism (flatInputs 20) (flatInputs 20) rfl⟩

/-- **C10.** At the moment either variant emits a shot, the release index
equals the newest buffer index (length − 1) — detection fires only on
the current frame, with no look-ahead — so the follow-through key frame
`min(release + 5, length − 1)` always collapses to the release index
itself: the advertised 5-frame post-release padding is never realised in
any emitted event. -/
theorem c10_followthrough_is_release (s : LiveState) (inp : FrameInput)
    (shot : ShotEvent) (h : (update s inp).2 = some shot) :
    (shot.release = (update s inp).1.elbowAngles.length - 1 ∧
      shot.followthrough = shot.release) ∧
    (∀ (sd : DebugState) (inp2 : FrameInput) (fn : ℕ) (ts : ℚ) (d : DetectedShot),
      (processFrame sd inp2 fn ts).2 = some d →
      d.release = (processFrame sd inp2 fn ts).1.metricsBuffer.length - 1 ∧
      d.followthrough = d.release) := by
  obtain ⟨L, len, hlen, _, _, _, _, _, _, _, _, _, _, hrel, hfol, hbuf⟩ :=
    update_emit s inp shot h
  refine ⟨⟨?_, ?_⟩, ?_⟩
  · rw [hrel, hbuf, hlen]
  · rw [hfol, hrel]
  · intro sd inp2 fn ts d hd
    obtain ⟨len2, hlen2, _, hrel2, hfol2, _, _, _, hbuf2⟩ :=
      processFrame_emit sd inp2 fn ts d hd
    exact ⟨by rw [hrel2, hbuf2, hlen2], by rw [hfol2, hrel2]⟩

/-- Witness for **C10** at the concrete accepted shots of both variants. -/
theorem c10_witness :
    (update witState witInput).2 = some witShot ∧
    witShot.followthrough = witShot.release ∧
    witDShot.followthrough = witDShot.release :=
  ⟨by decide,
    (c10_followthrough_is_release witState witInput witShot (by decide)).1.2,
    ((c10_followthrough_is_release witState witInput witShot (by decide)).2
      witDebugState witInput 15 15 witDShot (by decide)).2⟩

end ShotDoctor
